import Mathlib

/-!
Verification of the OneNote exporter's two core subsystems against their
specification: the retry primitive (src/utils/retry.js), the resource
acquisition coordinator (src/downloadStrategies.js) and the cross-reference
resolver (src/linkResolver.js).

JavaScript strings are modelled as Lean `String` values; every string
operation used by the source (substring containment, split, prefix/suffix
tests, percent encoding and decoding, lower-casing) is implemented here on
`List Char` so that all definitions compute inside the kernel.  JavaScript
string lengths count UTF-16 units while `List Char` counts code points; the
two agree on all identifiers handled by this program (ASCII GUIDs and paths).
-/

/-- Boolean test that `sub` occurs as a contiguous run inside `l`; models the
JavaScript `String.prototype.includes` test on character lists. -/
def listInfix (sub : List Char) : List Char → Bool
  | [] => sub.isEmpty
  | c :: cs => sub.isPrefixOf (c :: cs) || listInfix sub cs

/-- JavaScript `s.includes(sub)`. -/
def strIncludes (s sub : String) : Bool := listInfix sub.data s.data

/-- JavaScript `s.startsWith(p)`. -/
def strStartsWith (s p : String) : Bool := p.data.isPrefixOf s.data

/-- JavaScript `s.endsWith(p)`. -/
def strEndsWith (s p : String) : Bool := p.data.isSuffixOf s.data

/-- Split a character list at every occurrence of the single character `sep`;
models JavaScript `String.prototype.split` with a one-character separator
(the source only splits on `"#"` and `"&"`, and paths on `"/"`). -/
def splitChar (sep : Char) : List Char → List (List Char)
  | [] => [[]]
  | c :: cs =>
      if c = sep then [] :: splitChar sep cs
      else
        match splitChar sep cs with
        | [] => [[c]]
        | g :: gs => (c :: g) :: gs

/-- Remove the first occurrence of `pat` from the list; models the JavaScript
string replace with a plain-string pattern and empty replacement, as in
`parts[0].replace(&quot;onenote:&quot;, &quot;&quot;)`. -/
def removeFirst (pat : List Char) : List Char → List Char
  | [] => []
  | c :: cs =>
      if pat.isPrefixOf (c :: cs) then (c :: cs).drop pat.length
      else c :: removeFirst pat cs

/-- JavaScript `s.toLowerCase()`; `Char.toLower` lower-cases ASCII letters,
which covers every identifier and path this program compares. -/
def jsToLower (s : String) : String := String.mk (s.data.map Char.toLower)

/-- Drop a trailing `.md` extension, as in `p.replace(/\.md$/, &quot;&quot;)`. -/
def dropMdExt (s : String) : String :=
  if ".md".data.isSuffixOf s.data then String.mk (s.data.take (s.data.length - 3)) else s

/-- Drop a trailing `.one` extension, as in `p.replace(/\.one$/, &quot;&quot;)`. -/
def dropOneExt (s : String) : String :=
  if ".one".data.isSuffixOf s.data then String.mk (s.data.take (s.data.length - 4)) else s

/-- True for the characters JavaScript `encodeURIComponent` leaves unescaped:
ASCII letters, digits, and `- _ . ! ~ * &#39; ( )`. -/
def uriUnreserved (c : Char) : Bool :=
  (Char.ofNat 65 ≤ c && c ≤ Char.ofNat 90) ||
  (Char.ofNat 97 ≤ c && c ≤ Char.ofNat 122) ||
  (Char.ofNat 48 ≤ c && c ≤ Char.ofNat 57) ||
  c = '-' || c = '_' || c = '.' || c = '!' || c = '~' || c = '*' ||
  c = Char.ofNat 39 || c = '(' || c = ')'

/-- Upper-case hexadecimal digit for a value below 16. -/
def hexDigitChar (n : Nat) : Char :=
  if n < 10 then Char.ofNat (48 + n) else Char.ofNat (55 + n)

/-- UTF-8 byte sequence of one code point. -/
def utf8BytesOf (c : Char) : List Nat :=
  let n := c.toNat
  if n < 128 then [n]
  else if n < 2048 then [192 + n / 64, 128 + n % 64]
  else if n < 65536 then [224 + n / 4096, 128 + (n / 64) % 64, 128 + n % 64]
  else [240 + n / 262144, 128 + (n / 4096) % 64, 128 + (n / 64) % 64, 128 + n % 64]

/-- Percent-escape one character the way `encodeURIComponent` does. -/
def encodeChar (c : Char) : List Char :=
  if uriUnreserved c then [c]
  else (utf8BytesOf c).flatMap (fun b => ['%', hexDigitChar (b / 16), hexDigitChar (b % 16)])

/-- JavaScript `encodeURIComponent`. -/
def encodeURIComponent (s : String) : String := String.mk (s.data.flatMap encodeChar)

/-- Value of a hexadecimal digit, or `none` for a non-hex character. -/
def hexVal (c : Char) : Option Nat :=
  if Char.ofNat 48 ≤ c && c ≤ Char.ofNat 57 then some (c.toNat - 48)
  else if Char.ofNat 65 ≤ c && c ≤ Char.ofNat 70 then some (c.toNat - 55)
  else if Char.ofNat 97 ≤ c && c ≤ Char.ofNat 102 then some (c.toNat - 87)
  else none

/-- Turn a percent-encoded character list into the byte sequence it denotes:
each `%XX` contributes the byte `XX`, every other character contributes its
own UTF-8 bytes.  `none` models the `URIError` thrown on a malformed escape. -/
def percentBytes : List Char → Option (List Nat)
  | [] => some []
  | '%' :: h :: l :: rest => do
      let a ← hexVal h
      let b ← hexVal l
      let r ← percentBytes rest
      pure ((16 * a + b) :: r)
  | '%' :: _ => none
  | c :: rest => (percentBytes rest).map (fun r => utf8BytesOf c ++ r)

/-- True for a UTF-8 continuation byte. -/
def utf8Cont (b : Nat) : Bool := 128 ≤ b && b ≤ 191

/-- Strict UTF-8 decoder; `none` models the `URIError` thrown by
`decodeURIComponent` on byte sequences that are not well-formed UTF-8. -/
def utf8Decode : List Nat → Option (List Char)
  | [] => some []
  | b :: bs =>
      if b < 128 then (utf8Decode bs).map (fun cs => Char.ofNat b :: cs)
      else if 194 ≤ b && b ≤ 223 then
        match bs with
        | b2 :: bs2 =>
            if utf8Cont b2 then
              (utf8Decode bs2).map (fun cs => Char.ofNat ((b - 192) * 64 + (b2 - 128)) :: cs)
            else none
        | [] => none
      else if 224 ≤ b && b ≤ 239 then
        match bs with
        | b2 :: b3 :: bs3 =>
            if (if b = 224 then 160 ≤ b2 && b2 ≤ 191
                else if b = 237 then 128 ≤ b2 && b2 ≤ 159
                else utf8Cont b2) && utf8Cont b3 then
              (utf8Decode bs3).map
                (fun cs => Char.ofNat ((b - 224) * 4096 + (b2 - 128) * 64 + (b3 - 128)) :: cs)
            else none
        | _ => none
      else if 240 ≤ b && b ≤ 244 then
        match bs with
        | b2 :: b3 :: b4 :: bs4 =>
            if (if b = 240 then 144 ≤ b2 && b2 ≤ 191
                else if b = 244 then 128 ≤ b2 && b2 ≤ 143
                else utf8Cont b2) && utf8Cont b3 && utf8Cont b4 then
              (utf8Decode bs4).map
                (fun cs =>
                  Char.ofNat ((b - 240) * 262144 + (b2 - 128) * 4096 +
                    (b3 - 128) * 64 + (b4 - 128)) :: cs)
            else none
        | _ => none
      else none

/-- JavaScript `decodeURIComponent`; `none` models a thrown `URIError`. -/
def decodeURIComponent (s : String) : Option String :=
  (percentBytes s.data).bind (fun bs => (utf8Decode bs).map String.mk)

/-- Segments of a slash-separated path, empty segments removed. -/
def pathSegs (p : String) : List (List Char) :=
  (splitChar '/' p.data).filter (fun seg => ¬seg.isEmpty)

/-- Drop the common leading segments of two segment lists. -/
def dropCommonSegs : List (List Char) → List (List Char) → List (List Char) × List (List Char)
  | a :: as, b :: bs => if a = b then dropCommonSegs as bs else (a :: as, b :: bs)
  | as, bs => (as, bs)

/-- Join path segments with slashes. -/
def joinSegs : List (List Char) → List Char
  | [] => []
  | [g] => g
  | g :: g2 :: gs => g ++ '/' :: joinSegs (g2 :: gs)

/-- Node's `path.relative(fromP, toP)` for normalized absolute POSIX paths,
which is the only shape of path the exporter produces: drop the common
ancestor segments, then one `..` per remaining source segment followed by the
remaining target segments. -/
def pathRelative (fromP toP : String) : String :=
  let (fs, ts) := dropCommonSegs (pathSegs fromP) (pathSegs toP)
  String.mk (joinSegs (fs.map (fun _ => ['.', '.']) ++ ts))

/-!  The retry primitive, `withRetry` in src/utils/retry.js.

The fallible operation is modelled as `op : Nat → Except ε α × List λ`:
`(op i).1` is the outcome of its `i`-th invocation (counted from 0) and
`(op i).2` the observable events (such as strategy invocations) that
invocation emits; `withRetry` collects them in invocation order.  `maxAttempts`
is an integer, as in JavaScript, so that non-positive values behave exactly as
the `for` loop does.  The result records the invocation count and the list of
backoff sleeps actually performed; a raised error is `Except.error (some e)`,
while `Except.error none` models the `throw lastError` reached with
`lastError` still `undefined`.  The `operationName`/`silent` options only
affect console logging and are not modelled. -/

/-- Decidable equality for `Except`, needed to evaluate retry outcomes. -/
instance [DecidableEq ε] [DecidableEq α] : DecidableEq (Except ε α)
  | Except.error e, Except.error f =>
      if h : e = f then isTrue (by rw [h]) else isFalse (by intro hh; cases hh; exact h rfl)
  | Except.error _, Except.ok _ => isFalse (by intro hh; cases hh)
  | Except.ok _, Except.error _ => isFalse (by intro hh; cases hh)
  | Except.ok a, Except.ok b =>
      if h : a = b then isTrue (by rw [h]) else isFalse (by intro hh; cases hh; exact h rfl)

/-- Options record of `withRetry` (defaults `3`, `500`, `5000`, `2`). -/
structure RetryConfig where
  maxAttempts : Int
  initialDelayMs : Nat
  maxDelayMs : Nat
  backoffMultiplier : Nat
deriving DecidableEq

/-- Outcome of a `withRetry` run: final result, number of invocations of the
operation, backoff sleeps performed (in order), and the events the invoked
operation emitted. -/
structure RetryResult (ε α L : Type) where
  result : Except (Option ε) α
  calls : Nat
  sleeps : List Nat
  log : List L

/-- Body of the retry loop: `remaining` attempts left, `idx` the index of the
next invocation, `delay` the current backoff delay.  Mirrors the source loop:
return on success; on failure at the final attempt re-raise the error; on an
earlier failure sleep `delay` and continue with `min (delay * mult) maxD`. -/
def withRetryAux (op : Nat → Except ε α × List L) (mult maxD : Nat) :
    Nat → Nat → Nat → RetryResult ε α L
  | 0, _, _ => ⟨Except.error none, 0, [], []⟩
  | 1, idx, _ =>
      match op idx with
      | (Except.ok a, lg) => ⟨Except.ok a, 1, [], lg⟩
      | (Except.error e, lg) => ⟨Except.error (some e), 1, [], lg⟩
  | n + 2, idx, delay =>
      match op idx with
      | (Except.ok a, lg) => ⟨Except.ok a, 1, [], lg⟩
      | (Except.error _, lg) =>
          let rest := withRetryAux op mult maxD (n + 1) (idx + 1) (min (delay * mult) maxD)
          ⟨rest.result, rest.calls + 1, delay :: rest.sleeps, lg ++ rest.log⟩

/-- The retry primitive `withRetry(fn, options)` of src/utils/retry.js. -/
def withRetry (op : Nat → Except ε α × List L) (cfg : RetryConfig) : RetryResult ε α L :=
  withRetryAux op cfg.backoffMultiplier cfg.maxDelayMs cfg.maxAttempts.toNat 0 cfg.initialDelayMs

/-!  The resource acquisition coordinator, src/downloadStrategies.js.

`tryDirectDownload` is modelled in full from its source.  The network is a
function from a URL to `Option NetResponse`; `none` models a rejected request
(`context.request.get` throwing), `some r` a response.  The UI-interaction
strategy (`tryUIClick`) drives live browser events — element lookup, a
double-click, and a race between download/popup signals and timeouts — so its
outcome is modelled as an opaque boolean per invocation; nothing in the
claims depends on its internals, only on whether it reports success.  Both
are indexed by the retry-attempt number so that transient outcomes can differ
between attempts. -/

/-- An HTTP response as the coordinator observes it: `ok` is
`response.ok()`, `contentType` the `content-type` header (the source
substitutes the empty string for a missing header), `body` the bytes. -/
structure NetResponse where
  ok : Bool
  contentType : String
  body : String
deriving DecidableEq

/-- The fields of the attachment descriptor (`info`) that the coordinator
reads: `src` (empty string models a missing/falsy `info.src`), the tag id
used to find the clickable element, and the display name used in the
terminal failure message. -/
structure AttachInfo where
  src : String
  id : String
  originalName : String
deriving DecidableEq

/-- Environment of one `downloadAttachment` call: the network's response per
attempt and URL, and the UI-click strategy's outcome per attempt. -/
structure DlEnv where
  fetch : Nat → String → Option NetResponse
  uiSucceeds : Nat → Bool

/-- The three acquisition strategies, in cascade order. -/
inductive Strat
  | direct
  | uiClick
  | fallback
deriving DecidableEq

/-- Errors that can escape one attempt of the cascade: the terminal
`All download strategies failed for ...` error, or a network error raised by
the unguarded fallback request. -/
inductive DlError
  | allFailed (originalName : String)
  | network
deriving DecidableEq

/-- URL rewriting of the Direct strategy: append `download=1` with the
correct separator, idempotently. -/
def forceDownloadUrl (url : String) : String :=
  let separator := if strIncludes url "?" then "&" else "?"
  url ++ (if strIncludes url "download=1" then "" else separator ++ "download=1")

/-- Strategy 1, `tryDirectDownload`: applicable only to cloud-storage URLs;
fetch the rewritten URL; succeed (returning the bytes written) only on an OK
response whose content type does not contain `text/html`.  A rejected
request is caught and reported as failure. -/
def tryDirectDownload (fetch : String → Option NetResponse) (url : String) : Option String :=
  if !strIncludes url "sharepoint.com" && !strIncludes url "onedrive.live.com" &&
      !strIncludes url "1drv.ms" then
    none
  else
    match fetch (forceDownloadUrl url) with
    | none => none
    | some r =>
        if r.ok && !strIncludes r.contentType "text/html" then some r.body else none

/-- Outcome of the fallback plain request on the original URL.  The request
is not wrapped in a `try`, so a rejected request raises (`DlError.network`);
an OK non-HTML response succeeds; anything else falls through to the
terminal `allFailed` error. -/
def fallbackResult (resp : Option NetResponse) (originalName : String) : Except DlError Bool :=
  match resp with
  | none => Except.error DlError.network
  | some r =>
      if r.ok && !strIncludes r.contentType "text/html" then Except.ok true
      else Except.error (DlError.allFailed originalName)

/-- One attempt of the operation `downloadAttachment` hands to `withRetry`:
try Direct, then UI click, then (if `info.src` is truthy) the fallback
request; throw `allFailed` when everything in the attempt failed.  The
second component lists the strategies invoked during the attempt, in order. -/
def attachmentAttempt (env : DlEnv) (info : AttachInfo) (i : Nat) :
    Except DlError Bool × List Strat :=
  if (tryDirectDownload (env.fetch i) info.src).isSome then
    (Except.ok true, [Strat.direct])
  else if env.uiSucceeds i then
    (Except.ok true, [Strat.direct, Strat.uiClick])
  else if info.src ≠ "" then
    (fallbackResult (env.fetch i info.src) info.originalName,
      [Strat.direct, Strat.uiClick, Strat.fallback])
  else
    (Except.error (DlError.allFailed info.originalName), [Strat.direct, Strat.uiClick])

/-- The retry options `downloadAttachment` passes to `withRetry`:
`maxAttempts: 3`, `initialDelayMs: 1000`, defaults for the rest. -/
def attachRetryConfig : RetryConfig := ⟨3, 1000, 5000, 2⟩

/-- The `withRetry` run inside `downloadAttachment`, before the final
`.catch`. -/
def downloadAttachmentRun (env : DlEnv) (info : AttachInfo) : RetryResult DlError Bool Strat :=
  withRetry (attachmentAttempt env info) attachRetryConfig

/-- The coordinator's public entry point `downloadAttachment`: the retried
cascade with the trailing `.catch(e => ... return false)` that converts any
raised error into the value `false`. -/
def downloadAttachment (env : DlEnv) (info : AttachInfo) : Except (Option DlError) Bool :=
  match (downloadAttachmentRun env info).result with
  | Except.ok b => Except.ok b
  | Except.error _ => Except.ok false

/-- Success test of the fallback request, for the claim-side model below. -/
def fallbackOk (resp : Option NetResponse) : Bool :=
  match resp with
  | none => false
  | some r => r.ok && !strIncludes r.contentType "text/html"

/-- Modelled from the claim&#39;s reading of the spec: retry a single strategy up
to `maxAttempts` times, returning the number of invocations used and whether
it ever succeeded.  `i` is the index of the next invocation. -/
def retryStrategy (outcome : Nat → Bool) : Nat → Nat → Nat × Bool
  | 0, _ => (0, false)
  | n + 1, i =>
      if outcome i then (1, true)
      else
        let r := retryStrategy outcome n (i + 1)
        (r.1 + 1, r.2)

/-- Modelled from the claim&#39;s reading of the spec (claim C1): each strategy is
independently retried via the retry primitive, up to `maxA` invocations,
before the coordinator advances to the next strategy; the resulting strategy
invocation sequence. -/
def perStrategyRetryTrace (env : DlEnv) (info : AttachInfo) (maxA : Nat) : List Strat :=
  let d := retryStrategy (fun i => (tryDirectDownload (env.fetch i) info.src).isSome) maxA 0
  List.replicate d.1 Strat.direct ++
    (if d.2 then []
     else
       let u := retryStrategy env.uiSucceeds maxA 0
       List.replicate u.1 Strat.uiClick ++
         (if u.2 then []
          else if info.src ≠ "" then
            let f := retryStrategy (fun i => fallbackOk (env.fetch i info.src)) maxA 0
            List.replicate f.1 Strat.fallback
          else []))

/-!  The cross-reference resolver, `resolveInternalLinks` in
src/linkResolver.js.

`pageIdMap` is modelled as an association list in key-insertion order, which
is the iteration order of `Object.keys` for these non-numeric keys; a
JavaScript object never holds two bindings for one key, so the list's first
binding for a key is the binding.  File contents are passed in and the
result records the rewritten content together with whether the source would
write the file back (`modified`). -/

/-- One entry of a page's `internalLinks`: the unique placeholder id, the raw
href, and the display text. -/
structure LinkInfo where
  id : String
  href : String
  text : String
deriving DecidableEq

/-- One value of `pageIdMap`: output path, whether the entry is a
directory (section/group), and the page's collected cross references. -/
structure PageInfo where
  path : String
  isDir : Bool
  internalLinks : List LinkInfo

/-- The identifier index, in insertion order. -/
abbrev PageIdMap := List (String × PageInfo)

/-- The defensive key filter: `if (!id || id === 'undefined' || id === 'null') return false`. -/
def validId (id : String) : Bool :=
  !(id = "" || id = "undefined" || id = "null")

/-- Step 1 of the per-key test: the raw href contains the key verbatim or
percent encoded. -/
def exactEncodedMatch (href id : String) : Bool :=
  strIncludes href id || strIncludes href (encodeURIComponent id)

/-- Normalization of a decorated key: strip one leading brace, then keep the
part before the first closing brace — `id.replace(/^\x7b/, '').split('\x7d')[0]`. -/
def cleanId (id : String) : String :=
  let s := if strStartsWith id "\x7b" then String.mk (id.data.drop 1) else id
  String.mk (s.data.takeWhile (fun c => c ≠ '\x7d'))

/-- Step 2 of the per-key test: fuzzy match, only for normalized forms longer
than 20 characters that occur in the raw href. -/
def fuzzyMatch (href id : String) : Bool :=
  decide ((cleanId id).data.length > 20) && strIncludes href (cleanId id)

/-- The whole per-key predicate of the `Object.keys(pageIdMap).find(...)`
callback: skip invalid keys, then exact/encoded match, then fuzzy match. -/
def keyMatches (href id : String) : Bool :=
  validId id && (exactEncodedMatch href id || fuzzyMatch href id)

/-- The first `find` over the index keys (steps 1 and 2 of the matching
algorithm). -/
def findMatchingKey (keys : List String) (href : String) : Option String :=
  keys.find? (fun id => keyMatches href id)

/-- Step 3: path-derived matching for `onenote:` hrefs.  Parse hierarchy and
fragment, derive the lower-cased target path, and search the index for an
entry whose location relative to the output base (content extension
stripped, lower-cased) equals the derived path or ends with a slash followed
by it.  A decode failure is caught and yields no match. -/
def pathDerivedMatch (map : PageIdMap) (outputBase href : String) : Option (String × PageInfo) :=
  match splitChar '#' href.data with
  | p0 :: p1 :: _ =>
      let hier0 := (removeFirst "onenote:".data p0).map (fun c => if c = '\\' then '/' else c)
      match decodeURIComponent (String.mk hier0), decodeURIComponent (String.mk p1) with
      | some hierDecoded, some fragment =>
          let hierarchy := dropOneExt hierDecoded
          let fullTargetPath :=
            if strStartsWith fragment "section-id=" then jsToLower hierarchy
            else
              let pageName :=
                match splitChar '&' fragment.data with
                | n :: _ => String.mk n
                | [] => fragment
              if hierarchy ≠ "" then jsToLower (hierarchy ++ "/" ++ pageName)
              else jsToLower pageName
          map.find? (fun p =>
            let relToVault := jsToLower (dropMdExt (pathRelative outputBase p.2.path))
            relToVault = fullTargetPath || strEndsWith relToVault ("/" ++ fullTargetPath))
      | _, _ => none
  | _ => none

/-- The whole target search for one cross reference: steps 1 and 2 over the
keys, then, if nothing matched and the href mentions `onenote:`, step 3.  The
returned binding is the one `pageIdMap[targetId]` denotes. -/
def findTargetEntry (map : PageIdMap) (outputBase href : String) : Option (String × PageInfo) :=
  match findMatchingKey (map.map Prod.fst) href with
  | some id => (map.lookup id).map (fun inf => (id, inf))
  | none =>
      if strIncludes href "onenote:" then pathDerivedMatch map outputBase href else none

/-- Characters matched by an unflagged JavaScript regex dot. -/
def dotOk (c : Char) : Bool :=
  c ≠ '\n' && c ≠ '\r' && c.toNat ≠ 8232 && c.toNat ≠ 8233

/-- Lazy-dot scanning: find the shortest run of dot-matchable characters
after which `post` occurs, and return the remainder after `post`; `none`
when no such run exists.  This is the `.*?` followed by the literal `post`. -/
def findLazyEnd (post : List Char) : List Char → Option (List Char)
  | [] => if post.isPrefixOf ([] : List Char) then some [] else none
  | c :: cs =>
      if post.isPrefixOf (c :: cs) then some ((c :: cs).drop post.length)
      else if dotOk c then findLazyEnd post cs
      else none

/-- Global replacement of the pattern `pc pre .*? post` (all literals except
the lazy dot run) by `repl`, scanning left to right and continuing after
each match, exactly like a global lazy JavaScript regex replace.  `fuel`
bounds the recursion and is always called with the list length, which the
scan can never exceed since every step consumes at least one character. -/
def lazyReplaceFuel (pc : Char) (pre post repl : List Char) : Nat → List Char → List Char
  | 0, l => l
  | _ + 1, [] => []
  | fuel + 1, c :: cs =>
      if (pc :: pre).isPrefixOf (c :: cs) then
        match findLazyEnd post ((c :: cs).drop (pc :: pre).length) with
        | some rest => repl ++ lazyReplaceFuel pc pre post repl fuel rest
        | none => c :: lazyReplaceFuel pc pre post repl fuel cs
      else c :: lazyReplaceFuel pc pre post repl fuel cs

/-- The placeholder rewrite for one resolved link:
`content.replace(new RegExp('\\[\\[.*?\\]\\]<!-- onenote-link:' + id + ' -->', 'g'), '[[' + target + '|' + text + ']]')`. -/
def replacePlaceholder (linkId target text content : String) : String :=
  String.mk
    (lazyReplaceFuel '[' "[".data ("]]<!-- onenote-link:" ++ linkId ++ " -->").data
      ("[[" ++ target ++ "|" ++ text ++ "]]").data content.data.length content.data)

/-- The cleanup pass `content.replace(/<!-- onenote-link:.*? -->/g, '')`. -/
def stripMarkers (content : String) : String :=
  String.mk
    (lazyReplaceFuel '<' "!-- onenote-link:".data " -->".data []
      content.data.length content.data)

/-- Whether one cross reference finds a target that triggers the rewrite
branch: a match whose key is truthy and differs from the owning page's key. -/
def linkResolves (map : PageIdMap) (outputBase pageId : String) (link : LinkInfo) : Bool :=
  match findTargetEntry map outputBase link.href with
  | some (tid, _) => decide (tid ≠ "" ∧ tid ≠ pageId)
  | none => false

/-- The per-link loop of `resolveInternalLinks` for one page: for each link
look up a target; when found (truthy and not the page itself) rewrite that
link's placeholder and set `modified`, otherwise leave both untouched. -/
def processLinks (map : PageIdMap) (outputBase pageId : String) :
    List LinkInfo → String → Bool → String × Bool
  | [], content, modified => (content, modified)
  | link :: rest, content, modified =>
      match findTargetEntry map outputBase link.href with
      | some (tid, tinfo) =>
          if tid ≠ "" ∧ tid ≠ pageId then
            let relPath := pathRelative outputBase tinfo.path
            let cleanPath := if tinfo.isDir then relPath else dropMdExt relPath
            processLinks map outputBase pageId rest
              (replacePlaceholder link.id cleanPath link.text content) true
          else processLinks map outputBase pageId rest content modified
      | none => processLinks map outputBase pageId rest content modified

/-- Result of resolving one page: the final content and whether the source
writes the file back. -/
structure PageResult where
  content : String
  written : Bool
deriving DecidableEq

/-- Resolution of one (non-directory) page of the map: run the per-link
loop, then strip any remaining placeholder markers (setting `modified`), and
write back exactly when `modified` is set. -/
def processPage (map : PageIdMap) (outputBase pageId : String) (info : PageInfo)
    (content : String) : PageResult :=
  let r := processLinks map outputBase pageId info.internalLinks content false
  if strIncludes r.1 "<!-- onenote-link:" then ⟨stripMarkers r.1, true⟩
  else ⟨r.1, r.2⟩

/-!  Lemmas about the retry primitive. -/

/-- When the first `k` invocations fail and invocation `k` succeeds within
the attempt budget, the loop returns that success after exactly `k + 1`
invocations. -/
theorem withRetryAux_ok (op : Nat → Except ε α × List L) (mult maxD : Nat) (es : Nat → ε)
    (v : α) :
    ∀ (k n idx delay : Nat), k < n →
      (∀ i, i < k → (op (idx + i)).1 = Except.error (es (idx + i))) →
      (op (idx + k)).1 = Except.ok v →
      (withRetryAux op mult maxD n idx delay).result = Except.ok v ∧
      (withRetryAux op mult maxD n idx delay).calls = k + 1 := by
  intro k
  induction k with
  | zero =>
    intro n idx delay hk hfail hsucc
    have hs : (op idx).1 = Except.ok v := by simpa using hsucc
    rcases hop : op idx with ⟨r, lg⟩
    rw [hop] at hs
    simp only at hs
    subst hs
    cases n with
    | zero => omega
    | succ m =>
      cases m with
      | zero => simp [withRetryAux, hop]
      | succ m2 => simp [withRetryAux, hop]
  | succ kk ih =>
    intro n idx delay hk hfail hsucc
    cases n with
    | zero => omega
    | succ m =>
      cases m with
      | zero => omega
      | succ m2 =>
        have h0 : (op idx).1 = Except.error (es idx) := by
          simpa using hfail 0 (Nat.succ_pos kk)
        rcases hop : op idx with ⟨r, lg⟩
        rw [hop] at h0
        simp only at h0
        subst h0
        have ihh := ih (m2 + 1) (idx + 1) (min (delay * mult) maxD) (by omega)
          (fun i hi => by
            have hh := hfail (i + 1) (by omega)
            have e : idx + (i + 1) = idx + 1 + i := by omega
            rw [e] at hh
            exact hh)
          (by
            have hh := hsucc
            have e : idx + (kk + 1) = idx + 1 + kk := by omega
            rw [e] at hh
            exact hh)
        simp only [withRetryAux, hop]
        exact ⟨ihh.1, by rw [ihh.2]⟩

/-- When every invocation fails, the loop makes exactly `n` invocations and
re-raises the error of the last one. -/
theorem withRetryAux_err (op : Nat → Except ε α × List L) (mult maxD : Nat) (es : Nat → ε) :
    ∀ (n idx delay : Nat), 1 ≤ n → (∀ i, (op i).1 = Except.error (es i)) →
      (withRetryAux op mult maxD n idx delay).result = Except.error (some (es (idx + n - 1))) ∧
      (withRetryAux op mult maxD n idx delay).calls = n := by
  intro n
  induction n with
  | zero => intro idx delay h; omega
  | succ m ih =>
    intro idx delay _ hfail
    have h0 := hfail idx
    rcases hop : op idx with ⟨r, lg⟩
    rw [hop] at h0
    simp only at h0
    subst h0
    cases m with
    | zero => simp [withRetryAux, hop]
    | succ m2 =>
      have ihh := ih (idx + 1) (min (delay * mult) maxD) (by omega) hfail
      simp only [withRetryAux, hop]
      constructor
      · rw [ihh.1]
        have e : idx + 1 + (m2 + 1) - 1 = idx + (m2 + 1 + 1) - 1 := by omega
        rw [e]
      · rw [ihh.2]

/-- Every backoff sleep after the first is capped by `maxD`, so when the
current delay is itself at most `maxD` the total sleep is bounded by
`(n - 1) * maxD`. -/
theorem withRetryAux_sleep_le (op : Nat → Except ε α × List L) (mult maxD : Nat) :
    ∀ (n idx delay : Nat), delay ≤ maxD →
      (withRetryAux op mult maxD n idx delay).sleeps.sum ≤ (n - 1) * maxD := by
  intro n
  induction n with
  | zero => intro idx delay _; simp [withRetryAux]
  | succ m ih =>
    intro idx delay hd
    rcases hop : op idx with ⟨r, lg⟩
    cases m with
    | zero => cases r <;> simp [withRetryAux, hop]
    | succ m2 =>
      cases r with
      | ok a => simp [withRetryAux, hop]
      | error e =>
        have ihh := ih (idx + 1) (min (delay * mult) maxD) (Nat.min_le_right _ _)
        simp only [withRetryAux, hop, List.sum_cons]
        have e1 : m2 + 1 + 1 - 1 = m2 + 1 := by omega
        have e2 : m2 + 1 - 1 = m2 := by omega
        rw [e1]
        rw [e2] at ihh
        calc delay + (withRetryAux op mult maxD (m2 + 1) (idx + 1)
              (min (delay * mult) maxD)).sleeps.sum
            ≤ maxD + m2 * maxD := Nat.add_le_add hd ihh
          _ = (m2 + 1) * maxD := by rw [Nat.succ_mul, Nat.add_comm]

/-- When every invocation fails, the final result is some raised error. -/
theorem withRetryAux_allFail (op : Nat → Except ε α × List L) (mult maxD : Nat) :
    ∀ (n idx delay : Nat), (∀ i, ∃ e, (op i).1 = Except.error e) →
      ∃ eo, (withRetryAux op mult maxD n idx delay).result = Except.error eo := by
  intro n
  induction n with
  | zero => intro idx delay _; exact ⟨none, rfl⟩
  | succ m ih =>
    intro idx delay hfail
    obtain ⟨e, he⟩ := hfail idx
    rcases hop : op idx with ⟨r, lg⟩
    rw [hop] at he
    simp only at he
    subst he
    cases m with
    | zero => exact ⟨some e, by simp [withRetryAux, hop]⟩
    | succ m2 =>
      obtain ⟨eo, heo⟩ := ih (idx + 1) (min (delay * mult) maxD) hfail
      exact ⟨eo, by simp [withRetryAux, hop, heo]⟩

/-- The events the loop logs are exactly the events of the invocations it
made, concatenated in invocation order. -/
theorem withRetryAux_log (op : Nat → Except ε α × List L) (mult maxD : Nat) :
    ∀ (n idx delay : Nat),
      (withRetryAux op mult maxD n idx delay).log =
        ((List.range (withRetryAux op mult maxD n idx delay).calls).map
          (fun i => (op (idx + i)).2)).flatten := by
  intro n
  induction n with
  | zero => intro idx delay; simp [withRetryAux]
  | succ m ih =>
    intro idx delay
    rcases hop : op idx with ⟨r, lg⟩
    cases m with
    | zero => cases r <;> simp [withRetryAux, hop, List.range_succ, List.range_zero]
    | succ m2 =>
      cases r with
      | ok a => simp [withRetryAux, hop, List.range_succ, List.range_zero]
      | error e =>
        have ihh := ih (idx + 1) (min (delay * mult) maxD)
        simp only [withRetryAux, hop]
        rw [ihh, List.range_succ_eq_map, List.map_cons, List.flatten_cons, List.map_map]
        have e0 : (op (idx + 0)).2 = lg := by rw [Nat.add_zero, hop]
        rw [e0]
        have efun : ((fun i => (op (idx + i)).2) ∘ Nat.succ) =
            (fun i => (op (idx + 1 + i)).2) := by
          funext i
          simp only [Function.comp]
          have e : idx + Nat.succ i = idx + 1 + i := by omega
          rw [e]
        rw [efun]

/-!  Claims about the retry primitive. -/

/-- C5: for every operation and every maxAttempts at least 1, when the
operation fails `k` of fewer than maxAttempts times and then succeeds,
`withRetry` returns the success value after exactly `k + 1` invocations;
when the operation always fails, `withRetry` makes exactly maxAttempts
invocations and re-raises the last error. -/
theorem c5_withRetry_invocation_counts (cfg : RetryConfig) (op : Nat → Except ε α × List L)
    (es : Nat → ε) (k : Nat) (v : α) (hmax : 1 ≤ cfg.maxAttempts) :
    (k < cfg.maxAttempts.toNat →
      (∀ i, i < k → (op i).1 = Except.error (es i)) →
      (op k).1 = Except.ok v →
      (withRetry op cfg).result = Except.ok v ∧ (withRetry op cfg).calls = k + 1) ∧
    ((∀ i, (op i).1 = Except.error (es i)) →
      (withRetry op cfg).result = Except.error (some (es (cfg.maxAttempts.toNat - 1))) ∧
      (withRetry op cfg).calls = cfg.maxAttempts.toNat) := by
  constructor
  · intro hk hfail hsucc
    have h := withRetryAux_ok op cfg.backoffMultiplier cfg.maxDelayMs es v k
      cfg.maxAttempts.toNat 0 cfg.initialDelayMs hk
      (fun i hi => by simpa using hfail i hi)
      (by simpa using hsucc)
    exact h
  · intro hfail
    have h1 : 1 ≤ cfg.maxAttempts.toNat := by omega
    have h := withRetryAux_err op cfg.backoffMultiplier cfg.maxDelayMs es
      cfg.maxAttempts.toNat 0 cfg.initialDelayMs h1 hfail
    simpa using h

/-- Operation failing once with error 5 then succeeding with 7, emitting no
events; used to exercise the retry claims. -/
def opOnceThenOk : Nat → Except Nat Nat × List Unit :=
  fun i => (if i = 0 then Except.error 5 else Except.ok 7, [])

/-- Operation failing on every invocation with error `i + 1`. -/
def opAlwaysErr : Nat → Except Nat Nat × List Unit :=
  fun i => (Except.error (i + 1), [])

/-- The default retry options of src/utils/retry.js. -/
def cfgDefault : RetryConfig := ⟨3, 500, 5000, 2⟩

/-- Witness for C5: one failure then success returns 7 after 2 invocations;
an always-failing operation is invoked 3 times and the third error (3) is
re-raised. -/
theorem c5_withRetry_invocation_counts_witness :
    ((withRetry opOnceThenOk cfgDefault).result = Except.ok 7 ∧
      (withRetry opOnceThenOk cfgDefault).calls = 2) ∧
    ((withRetry opAlwaysErr cfgDefault).result = Except.error (some 3) ∧
      (withRetry opAlwaysErr cfgDefault).calls = 3) := by
  constructor
  · exact (c5_withRetry_invocation_counts cfgDefault opOnceThenOk (fun _ => 5) 1 7
      (by decide)).1 (by decide)
      (fun i hi => by
        cases i with
        | zero => rfl
        | succ n => exact absurd hi (by omega))
      rfl
  · exact (c5_withRetry_invocation_counts cfgDefault opAlwaysErr (fun i => i + 1) 0 0
      (by decide)).2 (fun i => rfl)

/-- C6 counterexample: with maxAttempts 2, initialDelay 6000 and maxDelay
5000 an always-failing operation sleeps 6000 ms in total, exceeding the
claimed bound (maxAttempts - 1) * maxDelay = 5000, because the initial delay
is never capped by maxDelay. -/
theorem c6_total_backoff_bound_cex :
    (withRetry opAlwaysErr ⟨2, 6000, 5000, 2⟩).sleeps.sum = 6000 ∧
    ¬((withRetry opAlwaysErr ⟨2, 6000, 5000, 2⟩).sleeps.sum ≤
      (((2 : Int)).toNat - 1) * 5000) := by decide

/-- C6 amended: whenever the configured initial delay does not exceed the
configured maximum delay — true of every configuration the source uses — the
sum of the backoff sleeps of any `withRetry` run (in particular of an
always-failing one) is at most (maxAttempts - 1) * maxDelay. -/
theorem c6_total_backoff_bound (cfg : RetryConfig) (op : Nat → Except ε α × List L)
    (hdelay : cfg.initialDelayMs ≤ cfg.maxDelayMs) :
    (withRetry op cfg).sleeps.sum ≤ (cfg.maxAttempts.toNat - 1) * cfg.maxDelayMs :=
  withRetryAux_sleep_le op cfg.backoffMultiplier cfg.maxDelayMs cfg.maxAttempts.toNat 0
    cfg.initialDelayMs hdelay

/-- Witness for the amended C6 at the source's default configuration. -/
theorem c6_total_backoff_bound_witness :
    (withRetry opAlwaysErr cfgDefault).sleeps.sum ≤
      (cfgDefault.maxAttempts.toNat - 1) * cfgDefault.maxDelayMs :=
  c6_total_backoff_bound cfgDefault opAlwaysErr (by decide)

/-- C10: with a non-positive maxAttempts the loop body never runs, the
operation is never invoked, and the undefined `lastError` is thrown
(modelled as `Except.error none`). -/
theorem c10_nonpositive_attempts (cfg : RetryConfig) (op : Nat → Except ε α × List L)
    (h : cfg.maxAttempts ≤ 0) :
    (withRetry op cfg).calls = 0 ∧ (withRetry op cfg).result = Except.error none := by
  unfold withRetry
  rw [Int.toNat_of_nonpos h]
  exact ⟨rfl, rfl⟩

/-- Witness for C10 at maxAttempts 0. -/
theorem c10_nonpositive_attempts_witness :
    (withRetry opAlwaysErr ⟨0, 500, 5000, 2⟩).calls = 0 ∧
    (withRetry opAlwaysErr ⟨0, 500, 5000, 2⟩).result = Except.error none :=
  c10_nonpositive_attempts ⟨0, 500, 5000, 2⟩ opAlwaysErr (by decide)

/-!  Claims about the resource acquisition coordinator. -/

/-- Environment where the network always rejects and the UI click always
succeeds; with an empty `src`, the Direct strategy always fails fast. -/
def envUiOk : DlEnv := ⟨fun _ _ => none, fun _ => true⟩

/-- Descriptor with no source URL. -/
def infoNoSrc : AttachInfo := ⟨"", "a1", "doc.pdf"⟩

/-- C1 counterexample: with the Direct strategy failing on every invocation
and the UI strategy succeeding immediately, the coordinator invokes Direct
once and then UI once ([direct, uiClick]); under the claimed per-strategy
retry discipline Direct would be re-invoked maxAttempts = 3 times before
advancing ([direct, direct, direct, uiClick]).  The observed invocation
sequence differs from the claimed one. -/
theorem c1_per_strategy_retry_cex :
    (downloadAttachmentRun envUiOk infoNoSrc).log = [Strat.direct, Strat.uiClick] ∧
    perStrategyRetryTrace envUiOk infoNoSrc attachRetryConfig.maxAttempts.toNat =
      [Strat.direct, Strat.direct, Strat.direct, Strat.uiClick] ∧
    (downloadAttachmentRun envUiOk infoNoSrc).log ≠
      perStrategyRetryTrace envUiOk infoNoSrc attachRetryConfig.maxAttempts.toNat := by decide

/-- C1 amended: the Retry Primitive wraps the whole strategy cascade as one
fallible operation.  The coordinator's strategy-invocation log is the
concatenation, over the retry attempts actually made, of each attempt's
cascade; and within one attempt each strategy is invoked at most once, in
the order Direct, then UI-Interaction, then Fallback, a failing strategy
advancing immediately to the next within the same attempt. -/
theorem c1_cascade_retry_structure (env : DlEnv) (info : AttachInfo) :
    (downloadAttachmentRun env info).log =
      ((List.range (downloadAttachmentRun env info).calls).map
        (fun i => (attachmentAttempt env info i).2)).flatten ∧
    ∀ i, (attachmentAttempt env info i).2 = [Strat.direct] ∨
      (attachmentAttempt env info i).2 = [Strat.direct, Strat.uiClick] ∨
      (attachmentAttempt env info i).2 = [Strat.direct, Strat.uiClick, Strat.fallback] := by
  constructor
  · have h := withRetryAux_log (attachmentAttempt env info) attachRetryConfig.backoffMultiplier
      attachRetryConfig.maxDelayMs attachRetryConfig.maxAttempts.toNat 0
      attachRetryConfig.initialDelayMs
    simpa [downloadAttachmentRun, withRetry] using h
  · intro i
    unfold attachmentAttempt
    split_ifs <;> simp

/-- C7: the Direct strategy succeeds only on an HTTP-success response whose
content type is not HTML; and whenever the rewritten URL returns content
type text/html, the Direct strategy writes nothing and the attempt proceeds
to the UI-Interaction strategy. -/
theorem c7_direct_html_rejected :
    (∀ (fetch : String → Option NetResponse) (url : String),
      (tryDirectDownload fetch url).isSome = true →
      ∃ r, fetch (forceDownloadUrl url) = some r ∧ r.ok = true ∧
        strIncludes r.contentType "text/html" = false) ∧
    (∀ (env : DlEnv) (info : AttachInfo) (i : Nat) (r : NetResponse),
      env.fetch i (forceDownloadUrl info.src) = some r →
      r.contentType = "text/html" →
      tryDirectDownload (env.fetch i) info.src = none ∧
      Strat.uiClick ∈ (attachmentAttempt env info i).2) := by
  constructor
  · intro fetch url h
    unfold tryDirectDownload at h
    split at h
    · simp at h
    · rcases hfetch : fetch (forceDownloadUrl url) with _ | r
      · rw [hfetch] at h
        simp at h
      · rw [hfetch] at h
        have h2 : (if (r.ok && !strIncludes r.contentType "text/html") = true
            then some r.body else (none : Option String)).isSome = true := h
        refine ⟨r, rfl, ?_⟩
        by_cases hc : (r.ok && !strIncludes r.contentType "text/html") = true
        · simp only [Bool.and_eq_true, Bool.not_eq_true'] at hc
          exact hc
        · rw [if_neg hc] at h2
          simp at h2
  · intro env info i r hf hct
    have hdirect : tryDirectDownload (env.fetch i) info.src = none := by
      unfold tryDirectDownload
      split
      · rfl
      · rw [hf]
        show (if (r.ok && !strIncludes r.contentType "text/html") = true
            then some r.body else (none : Option String)) = none
        rw [hct]
        have hh : strIncludes "text/html" "text/html" = true := by decide
        rw [hh]
        simp
    refine ⟨hdirect, ?_⟩
    unfold attachmentAttempt
    rw [hdirect]
    simp only [Option.isSome_none, Bool.false_eq_true, if_false]
    split_ifs <;> simp

/-- Environment whose network always answers an OK HTML page (a sign-in or
interstitial page) and whose UI strategy fails. -/
def envHtml : DlEnv := ⟨fun _ _ => some ⟨true, "text/html", "b"⟩, fun _ => false⟩

/-- Descriptor with a SharePoint source URL. -/
def infoCloud : AttachInfo := ⟨"https://a.sharepoint.com/f", "id7", "n7"⟩

/-- Witness for C7: an OK text/html response makes the Direct strategy fail
and the attempt proceed to the UI strategy. -/
theorem c7_direct_html_rejected_witness :
    tryDirectDownload (envHtml.fetch 0) infoCloud.src = none ∧
    Strat.uiClick ∈ (attachmentAttempt envHtml infoCloud 0).2 :=
  c7_direct_html_rejected.2 envHtml infoCloud 0 ⟨true, "text/html", "b"⟩ rfl rfl

/-- C9: the coordinator's public entry point never surfaces a raised error:
its result is always a boolean value, and when every attempt of the cascade
fails it is the value false. -/
theorem c9_failure_as_value (env : DlEnv) (info : AttachInfo) :
    (∃ b, downloadAttachment env info = Except.ok b) ∧
    ((∀ i, ∃ e, (attachmentAttempt env info i).1 = Except.error e) →
      downloadAttachment env info = Except.ok false) := by
  constructor
  · cases h : (downloadAttachmentRun env info).result with
    | ok b => exact ⟨b, by unfold downloadAttachment; rw [h]⟩
    | error e => exact ⟨false, by unfold downloadAttachment; rw [h]⟩
  · intro hfail
    obtain ⟨eo, heo⟩ := withRetryAux_allFail (attachmentAttempt env info)
      attachRetryConfig.backoffMultiplier attachRetryConfig.maxDelayMs
      attachRetryConfig.maxAttempts.toNat 0 attachRetryConfig.initialDelayMs hfail
    have h : (downloadAttachmentRun env info).result = Except.error eo := heo
    unfold downloadAttachment
    rw [h]

/-- Environment where the network always rejects and the UI strategy never
succeeds: every strategy of every attempt fails. -/
def envDead : DlEnv := ⟨fun _ _ => none, fun _ => false⟩

/-- Descriptor with a (non-cloud) source URL, so the fallback request runs
and rejects. -/
def infoPlain : AttachInfo := ⟨"x", "a9", "n9"⟩

/-- Witness for C9: with every strategy failing on every attempt the entry
point returns the value false instead of raising. -/
theorem c9_failure_as_value_witness :
    downloadAttachment envDead infoPlain = Except.ok false :=
  (c9_failure_as_value envDead infoPlain).2 (fun _ => ⟨DlError.network, rfl⟩)

/-!  Lemmas about the resolver's scanning primitives. -/

/-- The boolean substring test agrees with `List.IsInfix`. -/
theorem listInfix_iff (sub l : List Char) : listInfix sub l = true ↔ sub <:+: l := by
  induction l with
  | nil =>
    cases sub with
    | nil => simp [listInfix, List.nil_infix]
    | cons a as =>
      constructor
      · intro h
        simp [listInfix] at h
      · intro h
        have hl := h.length_le
        simp at hl
  | cons c cs ih =>
    simp only [listInfix, Bool.or_eq_true]
    rw [List.isPrefixOf_iff_prefix, ih]
    constructor
    · intro h
      rcases h with h | h
      · exact h.isInfix
      · exact h.trans (List.suffix_cons c cs).isInfix
    · intro h
      rcases List.infix_cons_iff.mp h with h | h
      · exact Or.inl h
      · exact Or.inr h

/-- A successful lazy scan for `post` implies `post` occurs in the input. -/
theorem findLazyEnd_some_occurs (post : List Char) :
    ∀ l r, findLazyEnd post l = some r → post <:+: l := by
  intro l
  induction l with
  | nil =>
    intro r h
    unfold findLazyEnd at h
    split at h
    · rename_i hp
      exact (List.isPrefixOf_iff_prefix.mp hp).isInfix
    · cases h
  | cons c cs ih =>
    intro r h
    unfold findLazyEnd at h
    split at h
    · rename_i hp
      exact (List.isPrefixOf_iff_prefix.mp hp).isInfix
    · split at h
      · exact ((ih r h).trans (List.suffix_cons c cs).isInfix)
      · cases h

/-- When `post` does not occur in the input, the global lazy replace leaves
the input unchanged. -/
theorem lazyReplaceFuel_of_absent (pc : Char) (pre post repl : List Char) :
    ∀ (fuel : Nat) (l : List Char), ¬post <:+: l →
      lazyReplaceFuel pc pre post repl fuel l = l := by
  intro fuel
  induction fuel with
  | zero => intro l _; rfl
  | succ f ih =>
    intro l hinf
    cases l with
    | nil => rfl
    | cons c cs =>
      have hcs : ¬post <:+: cs := fun h => hinf (h.trans (List.suffix_cons c cs).isInfix)
      unfold lazyReplaceFuel
      split
      · cases hfl : findLazyEnd post ((c :: cs).drop (pc :: pre).length) with
        | some rest =>
            exact absurd
              ((findLazyEnd_some_occurs post _ rest hfl).trans
                (List.drop_suffix _ _).isInfix) hinf
        | none =>
            show c :: lazyReplaceFuel pc pre post repl f cs = c :: cs
            rw [ih cs hcs]
      · rw [ih cs hcs]

/-- The marker prefix every placeholder pattern contains. -/
def markerStr : String := "<!-- onenote-link:"

/-- A content string with no remaining placeholder marker is unchanged by
the rewrite of any single link placeholder. -/
theorem replacePlaceholder_of_markerFree (linkId target text content : String)
    (h : strIncludes content markerStr = false) :
    replacePlaceholder linkId target text content = content := by
  have hme : ¬markerStr.data <:+: content.data := by
    intro hh
    rw [strIncludes, ← Bool.not_eq_true] at h
    exact h ((listInfix_iff markerStr.data content.data).mpr hh)
  have hpost : ¬("]]<!-- onenote-link:" ++ linkId ++ " -->").data <:+: content.data := by
    intro hh
    apply hme
    refine List.IsInfix.trans ?_ hh
    refine ⟨"]]".data, (linkId ++ " -->").data, ?_⟩
    have hsplit : "]]<!-- onenote-link:".data = "]]".data ++ markerStr.data := by decide
    simp only [String.data_append, hsplit, List.append_assoc]
    simp [markerStr, List.append_assoc]
  unfold replacePlaceholder
  rw [lazyReplaceFuel_of_absent _ _ _ _ _ _ hpost]

/-- Over marker-free content, the per-link loop leaves the content unchanged
and its `modified` flag records exactly whether some link found a rewritable
target. -/
theorem processLinks_markerFree (map : PageIdMap) (base pid : String) :
    ∀ (links : List LinkInfo) (content : String) (m : Bool),
      strIncludes content markerStr = false →
      processLinks map base pid links content m =
        (content, m || links.any (fun link => linkResolves map base pid link)) := by
  intro links
  induction links with
  | nil => intro content m h; simp [processLinks]
  | cons link rest ih =>
    intro content m h
    unfold processLinks
    cases hf : findTargetEntry map base link.href with
    | none =>
      rw [ih content m h]
      simp [List.any_cons, linkResolves, hf]
    | some p =>
      obtain ⟨tid, tinfo⟩ := p
      dsimp only
      by_cases hc : tid ≠ "" ∧ tid ≠ pid
      · rw [if_pos hc]
        rw [replacePlaceholder_of_markerFree _ _ _ _ h]
        rw [ih content true h]
        simp [List.any_cons, linkResolves, hf, hc]
      · rw [if_neg hc]
        rw [ih content m h]
        rw [not_and_or, not_not, not_not] at hc
        rcases hc with hc | hc <;> simp [List.any_cons, linkResolves, hf, hc]

/-!  Claims about the cross-reference resolver. -/

/-- A cross reference whose href names the page keyed `zzz`. -/
def resolvedLink : LinkInfo := ⟨"link_0", "onenote:page-id=zzz", "T"⟩

/-- A two-page index: the owning page `p1` and its target `zzz`. -/
def resolvedMap : PageIdMap :=
  [("p1", ⟨"/out/A.md", false, [resolvedLink]⟩), ("zzz", ⟨"/out/B.md", false, []⟩)]

/-- The metadata of the owning page `p1`. -/
def resolvedPage : PageInfo := ⟨"/out/A.md", false, [resolvedLink]⟩

/-- C3 counterexample: the first pass rewrites the placeholder, consuming
the marker, and writes; running the pass again over that already-resolved
content leaves the content unchanged — yet the page is written again,
because the source sets its `modified` flag whenever a target is found,
without checking that the rewrite changed anything. -/
theorem c3_second_pass_write_cex :
    processPage resolvedMap "/out" "p1" resolvedPage "[[T]]<!-- onenote-link:link_0 -->" =
      ⟨"[[B|T]]", true⟩ ∧
    processPage resolvedMap "/out" "p1" resolvedPage "[[B|T]]" = ⟨"[[B|T]]", true⟩ := by
  decide

/-- C3 amended: over content already produced by a resolution pass (no
placeholder marker remains), a second pass changes nothing in the content;
but the page is written again exactly when at least one of its references
still finds a rewritable target — only a page none of whose references
resolve escapes the needless write. -/
theorem c3_resolved_content_stable (map : PageIdMap) (base pageId : String)
    (info : PageInfo) (content : String)
    (h : strIncludes content markerStr = false) :
    (processPage map base pageId info content).content = content ∧
    (processPage map base pageId info content).written =
      info.internalLinks.any (fun link => linkResolves map base pageId link) := by
  unfold processPage
  rw [processLinks_markerFree map base pageId info.internalLinks content false h]
  have h2 : strIncludes (content, false ||
      info.internalLinks.any (fun link => linkResolves map base pageId link)).1
      "<!-- onenote-link:" = false := h
  rw [if_neg (by rw [h2]; exact Bool.false_ne_true)]
  simp

/-- Witness for the amended C3 at the concrete second-pass scenario. -/
theorem c3_resolved_content_stable_witness :
    (processPage resolvedMap "/out" "p1" resolvedPage "[[B|T]]").content = "[[B|T]]" ∧
    (processPage resolvedMap "/out" "p1" resolvedPage "[[B|T]]").written =
      resolvedPage.internalLinks.any
        (fun link => linkResolves resolvedMap "/out" "p1" link) :=
  c3_resolved_content_stable resolvedMap "/out" "p1" resolvedPage "[[B|T]]" (by decide)

/-- An href containing a long bare identifier and the later key `zzz`. -/
def hrefCex : String := "onenote:page-id=abcdefghijklmnopqrstuvw&target=zzz"

/-- A decorated key whose normalized form (23 characters) occurs in
`hrefCex` while the key itself (and its percent-encoded form) does not. -/
def fuzzyKey : String := "\x7babcdefghijklmnopqrstuvw\x7d\x7b1\x7d"

/-- C2 counterexample: the key `zzz` is valid and contained verbatim in the
href, yet the resolver selects `fuzzyKey`, which matches only fuzzily,
because it comes first in key-iteration order and the source checks exact
and fuzzy matching per key instead of in two passes over all keys. -/
theorem c2_exact_precedence_cex :
    validId "zzz" = true ∧ exactEncodedMatch hrefCex "zzz" = true ∧
    findMatchingKey [fuzzyKey, "zzz"] hrefCex = some fuzzyKey ∧
    exactEncodedMatch hrefCex fuzzyKey = false := by decide

/-- C2 amended: the resolver selects the first key, in key-iteration order,
satisfying the per-key test (exact/encoded or fuzzy); every key before the
selected one fails both tests.  Exact matching takes precedence over fuzzy
matching only within one key, not across keys. -/
theorem c2_first_key_in_order_wins (keys : List String) (href k : String)
    (h : findMatchingKey keys href = some k) :
    keyMatches href k = true ∧
    ∃ pre post, keys = pre ++ k :: post ∧ ∀ k2 ∈ pre, keyMatches href k2 = false := by
  induction keys with
  | nil => simp [findMatchingKey] at h
  | cons a as ih =>
    rw [findMatchingKey, List.find?_cons] at h
    cases hpa : keyMatches href a with
    | true =>
      rw [hpa] at h
      simp only at h
      cases h
      exact ⟨hpa, [], as, rfl, by simp⟩
    | false =>
      rw [hpa] at h
      simp only at h
      obtain ⟨hk, pre, post, heq, hpre⟩ := ih (by rw [findMatchingKey]; exact h)
      refine ⟨hk, a :: pre, post, by rw [heq]; rfl, ?_⟩
      intro k2 hk2
      rcases List.mem_cons.mp hk2 with rfl | hmem
      · exact hpa
      · exact hpre k2 hmem

/-- Witness for the amended C2: `zzz` is selected and the key before it
matches neither exactly nor fuzzily. -/
theorem c2_first_key_in_order_wins_witness :
    keyMatches hrefCex "zzz" = true ∧
    ∃ pre post, ["aa", "zzz"] = pre ++ "zzz" :: post ∧
      ∀ k2 ∈ pre, keyMatches hrefCex k2 = false :=
  c2_first_key_in_order_wins ["aa", "zzz"] hrefCex "zzz" (by decide)

/-- A cross reference whose `onenote:` href names a section by path. -/
def undefLink : LinkInfo := ⟨"link_0", "onenote:g\\s.one#section-id=\x7bx\x7d", "T"⟩

/-- An index holding the owning page and an entry stored under the invalid
key `undefined` whose location matches the href's derived path. -/
def undefMap : PageIdMap :=
  [("p1", ⟨"/out/p.md", false, [undefLink]⟩), ("undefined", ⟨"/out/g/s.md", false, []⟩)]

/-- C4 counterexample: the path-derived step has no invalid-key filter, so
the reference resolves to the entry stored under the key `undefined` and the
rewrite branch fires for it. -/
theorem c4_path_match_selects_invalid_cex :
    (findTargetEntry undefMap "/out" undefLink.href).map Prod.fst = some "undefined" ∧
    linkResolves undefMap "/out" "p1" undefLink = true := by decide

/-- C4 amended: the invalid-key exclusion holds in the exact/encoded and
normalized fuzzy steps — the key scan never selects an empty, `undefined` or
`null` key — but the path-derived step applies no such filter, so a
reference can still resolve to an entry stored under such a key (see the
counterexample). -/
theorem c4_substring_steps_skip_invalid (keys : List String) (href id : String)
    (h : findMatchingKey keys href = some id) :
    id ≠ "" ∧ id ≠ "undefined" ∧ id ≠ "null" := by
  unfold findMatchingKey at h
  have hm := List.find?_some h
  unfold keyMatches at hm
  rw [Bool.and_eq_true] at hm
  have hv := hm.1
  unfold validId at hv
  simp at hv
  exact ⟨hv.1.1, hv.1.2, hv.2⟩

/-- Witness for the amended C4 at a concrete index. -/
theorem c4_substring_steps_skip_invalid_witness :
    "zzz" ≠ "" ∧ "zzz" ≠ "undefined" ∧ "zzz" ≠ "null" :=
  c4_substring_steps_skip_invalid ["zzz"] hrefCex "zzz" (by decide)

/-- C8: a key passes the resolver's per-key test only through the
exact/encoded test or through a fuzzy match whose normalized form is longer
than 20 characters and occurs in the raw href; and for a key whose
normalized form has length at most 20, the whole test degenerates to the
exact/encoded test, so such a key is never selected by fuzzy matching alone
even when the href contains its normalized form. -/
theorem c8_fuzzy_threshold (href id : String) :
    (keyMatches href id = true →
      exactEncodedMatch href id = true ∨
      ((cleanId id).data.length > 20 ∧ strIncludes href (cleanId id) = true)) ∧
    ((cleanId id).data.length ≤ 20 →
      keyMatches href id = (validId id && exactEncodedMatch href id)) := by
  constructor
  · intro h
    unfold keyMatches at h
    rw [Bool.and_eq_true] at h
    have hor := h.2
    rw [Bool.or_eq_true] at hor
    rcases hor with he | hf
    · exact Or.inl he
    · unfold fuzzyMatch at hf
      rw [Bool.and_eq_true] at hf
      exact Or.inr ⟨of_decide_eq_true hf.1, hf.2⟩
  · intro hle
    unfold keyMatches fuzzyMatch
    have hd : decide ((cleanId id).data.length > 20) = false := decide_eq_false (by omega)
    rw [hd]
    simp

/-- Witness for C8: a key with a short normalized form (2 characters) whose
href-containment test reduces to the exact/encoded test. -/
theorem c8_fuzzy_threshold_witness :
    keyMatches "x\x7bab\x7d" "\x7bab\x7d" =
      (validId "\x7bab\x7d" && exactEncodedMatch "x\x7bab\x7d" "\x7bab\x7d") :=
  (c8_fuzzy_threshold "x\x7bab\x7d" "\x7bab\x7d").2 (by decide)
